import Mathlib

/-!
Verification development for a MySQL bulk database backup/migration tool
(`src/export.ts`, `src/import.ts`).  The tool reads a sequence of per-database
credential records, and either dumps every database to a timestamped `.sql`
file (export mode) or provisions each database and restores the most recent
matching backup into it (import mode), accumulating run statistics that decide
the process exit status.

The embedding below translates the relevant TypeScript functions into Lean:
pure string manipulation is modelled on `List Char` (a JavaScript string is a
sequence of code units), the filesystem and the external `mysql`/`mysqldump`
processes are modelled by explicit environment records giving the outcome of
each external call, and the sequential orchestrator loops become folds.
-/

/-! ## JavaScript string primitives

`String.prototype.startsWith` / `endsWith` and the default lexicographic
comparison used by `Array.prototype.sort()` (code-unit order), modelled on the
character sequence of the Lean string. -/

/-- `s.startsWith(pre)` of JavaScript: the characters of `pre` are a prefix of
the characters of `s`. -/
def jsStartsWith (s pre : String) : Bool :=
  pre.data.isPrefixOf s.data

/-- `s.endsWith(suf)` of JavaScript: the characters of `suf` are a suffix of
the characters of `s`. -/
def jsEndsWith (s suf : String) : Bool :=
  suf.data.isSuffixOf s.data

/-- Lexicographic `≤` on character sequences, the order used by JavaScript's
default `Array.prototype.sort()` on strings. -/
def listCharLe : List Char → List Char → Bool
  | [], _ => true
  | _ :: _, [] => false
  | a :: as, b :: bs => if a < b then true else if b < a then false else listCharLe as bs

/-- String comparison of JavaScript's default sort, as a Bool. -/
def strLeB (a b : String) : Bool :=
  listCharLe a.data b.data

/-- `files.sort()` of JavaScript on an array of strings: a stable sort by
lexicographic string order. -/
def jsSortStrings (files : List String) : List String :=
  List.insertionSort (fun a b => strLeB a b = true) files

/-- `path.join(dir, name)` for a plain directory name and file name. -/
def joinPath (dir name : String) : String :=
  dir ++ "/" ++ name

/-! ## Data model -/

/-- One row of the credentials spreadsheet (`DatabaseCredentials` in both
`export.ts` and `import.ts`). -/
structure DatabaseCredentials where
  database_name : String
  username : String
  password : String
  host : String
deriving DecidableEq

/-- `ImportStats` of `import.ts`. -/
structure ImportStats where
  total : Nat
  successful : Nat
  failed : Nat
  skipped : Nat
deriving DecidableEq

/-- `ExportStats` of `export.ts`. -/
structure ExportStats where
  total : Nat
  successful : Nat
  failed : Nat
deriving DecidableEq

/-! ## BackupLocator (`findBackupFile`, import.ts lines 173-185) -/

/-- The filter predicate of `findBackupFile`:
`file.startsWith(dbName + "_") && file.endsWith(".sql")`. -/
def backupMatches (dbName file : String) : Bool :=
  jsStartsWith file (dbName ++ "_") && jsEndsWith file ".sql"

/-- `findBackupFile(dbName, backupPath)` of `import.ts`.  The filesystem state
is passed explicitly: `listing = none` models `existsSync(backupPath)` being
false, `listing = some files` models `readdirSync(backupPath)` returning
`files`.  The matching files are sorted ascending and reversed (most recent
first), and the first is joined onto the directory path. -/
def findBackupFile (dbName backupPath : String) (listing : Option (List String)) :
    Option String :=
  match listing with
  | none => none
  | some files =>
    let backupFiles := (jsSortStrings (files.filter (fun file => backupMatches dbName file))).reverse
    match backupFiles with
    | [] => none
    | f :: _ => some (joinPath backupPath f)

/-! ## Import pipeline (`import.ts`) -/

/-- Per-record outcome of one iteration of the import loop. -/
inductive RecordOutcome where
  | successful
  | failed
  | skipped
deriving DecidableEq

/-- Observable per-database operations of the import loop, used to state
ordering and short-circuit properties. -/
inductive ImportOp where
  | locate
  | provision
  | restore (host : String)
deriving DecidableEq

/-- The external world of one import run: the backup directory contents and the
outcome of each external `mysql` invocation.  `provisionOk db` is the outcome of
`createDatabaseAndUser` (exit code 0 of the administrative script) and
`restoreOk db h` the outcome of one `importDatabaseWithHost` attempt against
host `h` (clean exit of the restore process; spawn errors, stdin failures and
the 10-minute timeout all count as `false`). -/
structure ImportEnv where
  backupPath : String
  listing : Option (List String)
  provisionOk : DatabaseCredentials → Bool
  restoreOk : DatabaseCredentials → String → Bool

/-- `importDatabase` of `import.ts` (lines 303-330): first restore attempt
against the record's own host; if it fails and the host is `localhost`, one
retry against `127.0.0.1`; if it fails and the host is `127.0.0.1`, one retry
against `localhost`; no retry otherwise.  The second component records the
hosts of the restore attempts, in order. -/
def importDatabase (env : ImportEnv) (db : DatabaseCredentials) : Bool × List String :=
  let success := env.restoreOk db db.host
  if success = false ∧ db.host = "localhost" then
    (env.restoreOk db "127.0.0.1", [db.host, "127.0.0.1"])
  else if success = false ∧ db.host = "127.0.0.1" then
    (env.restoreOk db "localhost", [db.host, "localhost"])
  else
    (success, [db.host])

/-- One iteration of the import loop body (`import.ts` lines 361-394):
locate the backup file; if absent, the record is skipped; otherwise provision
database and user; on provisioning failure the record is failed; otherwise
restore, and the record is successful or failed according to the restore
outcome.  The second component is the sequence of operations performed. -/
def importStep (env : ImportEnv) (db : DatabaseCredentials) :
    RecordOutcome × List ImportOp :=
  match findBackupFile db.database_name env.backupPath env.listing with
  | none => (RecordOutcome.skipped, [ImportOp.locate])
  | some _ =>
    if env.provisionOk db then
      let r := importDatabase env db
      ((if r.1 then RecordOutcome.successful else RecordOutcome.failed),
        ImportOp.locate :: ImportOp.provision :: r.2.map ImportOp.restore)
    else
      (RecordOutcome.failed, [ImportOp.locate, ImportOp.provision])

/-- `stats.successful++ / stats.failed++ / stats.skipped++` of the import
loop: exactly one counter is incremented per processed record. -/
def importApply (s : ImportStats) : RecordOutcome → ImportStats
  | RecordOutcome.successful => { s with successful := s.successful + 1 }
  | RecordOutcome.failed => { s with failed := s.failed + 1 }
  | RecordOutcome.skipped => { s with skipped := s.skipped + 1 }

/-- One fold step of the import orchestrator; the second component records the
processed records and their outcomes in processing order (modelling the
per-record `[i/total] Processing ...` output and statistics updates). -/
def importLoopStep (env : ImportEnv)
    (acc : ImportStats × List (DatabaseCredentials × RecordOutcome))
    (db : DatabaseCredentials) :
    ImportStats × List (DatabaseCredentials × RecordOutcome) :=
  let r := (importStep env db).1
  (importApply acc.1 r, acc.2 ++ [(db, r)])

/-- The import orchestrator loop (`main` of `import.ts`, lines 354-394):
statistics start at `{total := databases.length, 0, 0, 0}` and every record of
the sequence is processed in order. -/
def runImportWithTrace (env : ImportEnv) (dbs : List DatabaseCredentials) :
    ImportStats × List (DatabaseCredentials × RecordOutcome) :=
  dbs.foldl (importLoopStep env) (⟨dbs.length, 0, 0, 0⟩, [])

/-- Final statistics of a completed import run. -/
def runImport (env : ImportEnv) (dbs : List DatabaseCredentials) : ImportStats :=
  (runImportWithTrace env dbs).1

/-- Exit status of a completed import run (`import.ts` lines 410-415):
`process.exit(1)` when `stats.failed > 0 || stats.skipped > 0`, implicit
exit 0 otherwise. -/
def importExitCode (s : ImportStats) : Nat :=
  if 0 < s.failed ∨ 0 < s.skipped then 1 else 0

/-! ## Export pipeline (`export.ts`) -/

/-- How one `mysqldump` child process ended: a `close` event with an exit
code, a spawn `error` event, or the 5-minute timeout. -/
inductive DumpTermination where
  | closed (code : Nat)
  | spawnError
  | timeout
deriving DecidableEq

/-- The success condition of `dumpDatabase` (`export.ts` lines 188-211): the
dump succeeds exactly when the child closes with exit code 0; the collected
stderr chunks are only used as diagnostic text in the failure log message and
do not influence the outcome. -/
def dumpOutcome : DumpTermination → List String → Bool
  | DumpTermination.closed code, _ => code == 0
  | DumpTermination.spawnError, _ => false
  | DumpTermination.timeout, _ => false

/-- The external world of one export run: how each database's `mysqldump`
process terminates and what it writes to stderr. -/
structure ExportEnv where
  termination : DatabaseCredentials → DumpTermination
  stderrOutput : DatabaseCredentials → List String

/-- `dumpDatabase` of `export.ts` as a success predicate. -/
def dumpDatabase (env : ExportEnv) (db : DatabaseCredentials) : Bool :=
  dumpOutcome (env.termination db) (env.stderrOutput db)

/-- `stats.successful++ / stats.failed++` of the export loop. -/
def exportApply (s : ExportStats) (success : Bool) : ExportStats :=
  if success then { s with successful := s.successful + 1 }
  else { s with failed := s.failed + 1 }

/-- One fold step of the export orchestrator, with a processing trace. -/
def exportLoopStep (env : ExportEnv)
    (acc : ExportStats × List (DatabaseCredentials × Bool))
    (db : DatabaseCredentials) :
    ExportStats × List (DatabaseCredentials × Bool) :=
  let r := dumpDatabase env db
  (exportApply acc.1 r, acc.2 ++ [(db, r)])

/-- The export orchestrator loop (`main` of `export.ts`, lines 230-246). -/
def runExportWithTrace (env : ExportEnv) (dbs : List DatabaseCredentials) :
    ExportStats × List (DatabaseCredentials × Bool) :=
  dbs.foldl (exportLoopStep env) (⟨dbs.length, 0, 0⟩, [])

/-- Final statistics of a completed export run. -/
def runExport (env : ExportEnv) (dbs : List DatabaseCredentials) : ExportStats :=
  (runExportWithTrace env dbs).1

/-- Exit status of a completed export run (`export.ts` lines 262-267). -/
def exportExitCode (s : ExportStats) : Nat :=
  if 0 < s.failed then 1 else 0

/-! ## Backup artifact file names (`dumpDatabase`, export.ts lines 156-158)

`new Date().toISOString()` produces `YYYY-MM-DDTHH:MM:SS.mmmZ` with
fixed-width zero-padded fields; the code then replaces every `:` and `.` with
`-`, splits on `T`, and keeps only `timestamp[0]` and the part of
`timestamp[1]` before the first `-`. -/

/-- The decimal digit character of `n` (for `n < 10`). -/
def digitChar (n : Nat) : Char :=
  Char.ofNat (48 + n)

/-- Two-digit zero-padded decimal rendering (faithful for `n < 100`). -/
def pad2 (n : Nat) : List Char :=
  [digitChar (n / 10), digitChar (n % 10)]

/-- Three-digit zero-padded decimal rendering (faithful for `n < 1000`). -/
def pad3 (n : Nat) : List Char :=
  digitChar (n / 100) :: pad2 (n % 100)

/-- Four-digit zero-padded decimal rendering (faithful for `n < 10000`). -/
def pad4 (n : Nat) : List Char :=
  pad2 (n / 100) ++ pad2 (n % 100)

/-- The UTC wall-clock instant observed by `new Date()`, at millisecond
precision, as rendered by `toISOString`. -/
structure UTCTime where
  year : Nat
  month : Nat
  day : Nat
  hour : Nat
  minute : Nat
  second : Nat
  ms : Nat
deriving DecidableEq

/-- The character sequence of `Date.prototype.toISOString()`:
`YYYY-MM-DDTHH:MM:SS.mmmZ`. -/
def toISOChars (t : UTCTime) : List Char :=
  pad4 t.year ++ '-' :: pad2 t.month ++ '-' :: pad2 t.day ++
    'T' :: pad2 t.hour ++ ':' :: pad2 t.minute ++ ':' :: pad2 t.second ++
    '.' :: pad3 t.ms ++ ['Z']

/-- `.replace(/[:.]/g, '-')`: every colon and dot becomes a dash. -/
def replaceColonsDots (s : List Char) : List Char :=
  s.map fun c => if c = ':' ∨ c = '.' then '-' else c

/-- `String.prototype.split(sep)` for a single-character separator. -/
def splitOnChar (sep : Char) : List Char → List (List Char)
  | [] => [[]]
  | c :: cs =>
    match splitOnChar sep cs with
    | [] => if c = sep then [[], []] else [[c]]
    | r :: rs => if c = sep then [] :: r :: rs else (c :: r) :: rs

/-- The `dateTime` string of `dumpDatabase` (`export.ts` lines 156-157):
`timestamp = toISOString().replace(/[:.]/g,'-').split('T')`, then
`timestamp[0] + "_" + timestamp[1].split('-')[0]`. -/
def dumpDateTimeChars (t : UTCTime) : List Char :=
  let timestamp := splitOnChar 'T' (replaceColonsDots (toISOChars t))
  (timestamp.getD 0 []) ++ '_' :: ((splitOnChar '-' (timestamp.getD 1 [])).getD 0 [])

/-- The backup artifact file name `` `${database_name}_${dateTime}.sql` `` of
`export.ts` line 158. -/
def exportBackupFileName (dbName : String) (t : UTCTime) : String :=
  dbName ++ "_" ++ String.mk (dumpDateTimeChars t) ++ ".sql"

/-- The full artifact path `join(backupPath, ...)` of `export.ts` line 158. -/
def exportBackupFilePath (backupPath dbName : String) (t : UTCTime) : String :=
  joinPath backupPath (exportBackupFileName dbName t)

/-- The date-and-hour character sequence `YYYY-MM-DD_HH` that the embedded
timestamp of a backup file name actually carries. -/
def hourChars (t : UTCTime) : List Char :=
  pad4 t.year ++ '-' :: pad2 t.month ++ '-' :: pad2 t.day ++ '_' :: pad2 t.hour

/-- `t1` is chronologically before `t2` once both are truncated to whole
hours. -/
def hourTruncEarlier (t1 t2 : UTCTime) : Prop :=
  t1.year < t2.year ∨
    (t1.year = t2.year ∧ (t1.month < t2.month ∨
      (t1.month = t2.month ∧ (t1.day < t2.day ∨
        (t1.day = t2.day ∧ t1.hour < t2.hour)))))

/-- All fields of the instant are in the ranges `toISOString` renders
faithfully (any real clock reading satisfies these). -/
def validTime (t : UTCTime) : Prop :=
  t.year < 10000 ∧ t.month < 100 ∧ t.day < 100 ∧ t.hour < 100 ∧
    t.minute < 100 ∧ t.second < 100 ∧ t.ms < 1000

/-! ## Run loggers (`Logger` classes of import.ts and export.ts)

The import-mode constructor (import.ts lines 64-68) only computes the log file
name; the export-mode constructor (export.ts lines 56-64) additionally creates
the log directory when it is absent.  `log` appends to the in-memory buffer
and calls `flush` whenever the buffer length has reached a multiple of 10;
`flush` calls `writeFileSync`, which (Node `fs` semantics) throws when the
directory of the target path does not exist. -/

/-- A filesystem side effect performed by a logger constructor. -/
inductive FsEffect where
  | mkdirRecursive (dir : String)
deriving DecidableEq

/-- Filesystem effects of the import-mode `Logger` constructor
(import.ts lines 64-68): none. -/
def importLoggerCtorEffects (_logDir : String) (_dirExists : Bool) : List FsEffect :=
  []

/-- Filesystem effects of the export-mode `Logger` constructor
(export.ts lines 56-64): `mkdirSync(logDir, {recursive: true})` when the
directory does not exist. -/
def exportLoggerCtorEffects (logDir : String) (dirExists : Bool) : List FsEffect :=
  if dirExists then [] else [FsEffect.mkdirRecursive logDir]

/-- `Logger.log` (identical in both files): push the message, then flush when
`logStream.length % 10 === 0`.  Returns the new buffer and whether a flush was
triggered. -/
def loggerLog (logStream : List String) (message : String) : List String × Bool :=
  let s := logStream ++ [message]
  (s, s.length % 10 == 0)

/-- Whether `writeFileSync` into the log directory succeeds: it throws exactly
when the directory does not exist (Node `fs` semantics, modelled). -/
def writeFileOk (dirExists : Bool) : Bool :=
  dirExists

/-- Process a sequence of `log` calls, starting from buffer `stream`.
Returns `false` when a triggered flush throws (aborting the run), `true` when
all calls complete. -/
def processLogCalls (dirExists : Bool) (stream : List String) :
    List String → Bool
  | [] => true
  | m :: ms =>
    let r := loggerLog stream m
    if r.2 = true ∧ writeFileOk dirExists = false then false
    else processLogCalls dirExists r.1 ms

/-- A run of `log` calls through the import-mode logger: the constructor
created no directory, so flushes depend on the pre-existing state. -/
def importLoggerRunCompletes (dirExists : Bool) (msgs : List String) : Bool :=
  processLogCalls dirExists [] msgs

/-- A run of `log` calls through the export-mode logger: after the
constructor the log directory exists. -/
def exportLoggerRunCompletes (_dirExists : Bool) (msgs : List String) : Bool :=
  processLogCalls true [] msgs

/-! ## Orchestrator fold lemmas -/

theorem importApply_total (s : ImportStats) (o : RecordOutcome) :
    (importApply s o).total = s.total := by
  cases o <;> simp [importApply]

theorem importApply_sum (s : ImportStats) (o : RecordOutcome) :
    (importApply s o).successful + (importApply s o).failed + (importApply s o).skipped
      = s.successful + s.failed + s.skipped + 1 := by
  cases o <;> simp [importApply] <;> omega

theorem importLoop_total (env : ImportEnv) :
    ∀ (dbs : List DatabaseCredentials) (acc : ImportStats × List (DatabaseCredentials × RecordOutcome)),
      ((dbs.foldl (importLoopStep env) acc).1).total = acc.1.total
  | [], _ => rfl
  | db :: dbs, acc => by
    rw [List.foldl_cons, importLoop_total env dbs]
    exact importApply_total _ _

theorem importLoop_sum (env : ImportEnv) :
    ∀ (dbs : List DatabaseCredentials) (acc : ImportStats × List (DatabaseCredentials × RecordOutcome)),
      ((dbs.foldl (importLoopStep env) acc).1).successful
        + ((dbs.foldl (importLoopStep env) acc).1).failed
        + ((dbs.foldl (importLoopStep env) acc).1).skipped
      = acc.1.successful + acc.1.failed + acc.1.skipped + dbs.length
  | [], _ => rfl
  | db :: dbs, acc => by
    rw [List.foldl_cons, importLoop_sum env dbs]
    have := importApply_sum acc.1 (importStep env db).1
    simp only [importLoopStep, List.length_cons]
    omega

theorem importLoop_trace (env : ImportEnv) :
    ∀ (dbs : List DatabaseCredentials) (acc : ImportStats × List (DatabaseCredentials × RecordOutcome)),
      (dbs.foldl (importLoopStep env) acc).2
        = acc.2 ++ dbs.map (fun db => (db, (importStep env db).1))
  | [], acc => by simp
  | db :: dbs, acc => by
    rw [List.foldl_cons, importLoop_trace env dbs]
    simp [importLoopStep]

theorem exportApply_total (s : ExportStats) (b : Bool) :
    (exportApply s b).total = s.total := by
  cases b <;> simp [exportApply]

theorem exportApply_sum (s : ExportStats) (b : Bool) :
    (exportApply s b).successful + (exportApply s b).failed = s.successful + s.failed + 1 := by
  cases b <;> simp [exportApply] <;> omega

theorem exportLoop_total (env : ExportEnv) :
    ∀ (dbs : List DatabaseCredentials) (acc : ExportStats × List (DatabaseCredentials × Bool)),
      ((dbs.foldl (exportLoopStep env) acc).1).total = acc.1.total
  | [], _ => rfl
  | db :: dbs, acc => by
    rw [List.foldl_cons, exportLoop_total env dbs]
    exact exportApply_total _ _

theorem exportLoop_sum (env : ExportEnv) :
    ∀ (dbs : List DatabaseCredentials) (acc : ExportStats × List (DatabaseCredentials × Bool)),
      ((dbs.foldl (exportLoopStep env) acc).1).successful
        + ((dbs.foldl (exportLoopStep env) acc).1).failed
      = acc.1.successful + acc.1.failed + dbs.length
  | [], _ => rfl
  | db :: dbs, acc => by
    rw [List.foldl_cons, exportLoop_sum env dbs]
    have := exportApply_sum acc.1 (dumpDatabase env db)
    simp only [exportLoopStep, List.length_cons]
    omega

theorem exportLoop_trace (env : ExportEnv) :
    ∀ (dbs : List DatabaseCredentials) (acc : ExportStats × List (DatabaseCredentials × Bool)),
      (dbs.foldl (exportLoopStep env) acc).2
        = acc.2 ++ dbs.map (fun db => (db, dumpDatabase env db))
  | [], acc => by simp
  | db :: dbs, acc => by
    rw [List.foldl_cons, exportLoop_trace env dbs]
    simp [exportLoopStep]

/-- C1: For every run over any credential sequence, the final RunStats counters
partition the total exactly: in import mode `successful + failed + skipped =
total` and in export mode `successful + failed = total`, where `total` is the
number of loaded credential records; each record processed increments exactly
one counter by exactly one. -/
theorem stats_partition_claim :
    (∀ (env : ImportEnv) (dbs : List DatabaseCredentials),
      (runImport env dbs).total = dbs.length ∧
      (runImport env dbs).successful + (runImport env dbs).failed
        + (runImport env dbs).skipped = (runImport env dbs).total) ∧
    (∀ (env : ExportEnv) (dbs : List DatabaseCredentials),
      (runExport env dbs).total = dbs.length ∧
      (runExport env dbs).successful + (runExport env dbs).failed
        = (runExport env dbs).total) ∧
    (∀ (s : ImportStats) (o : RecordOutcome),
      importApply s o = { s with successful := s.successful + 1 } ∨
      importApply s o = { s with failed := s.failed + 1 } ∨
      importApply s o = { s with skipped := s.skipped + 1 }) ∧
    (∀ (s : ExportStats) (b : Bool),
      exportApply s b = { s with successful := s.successful + 1 } ∨
      exportApply s b = { s with failed := s.failed + 1 }) := by
  refine ⟨fun env dbs => ?_, fun env dbs => ?_, fun s o => ?_, fun s b => ?_⟩
  · have ht := importLoop_total env dbs (⟨dbs.length, 0, 0, 0⟩, [])
    have hs := importLoop_sum env dbs (⟨dbs.length, 0, 0, 0⟩, [])
    simp only [runImport, runImportWithTrace] at *
    constructor
    · exact ht
    · rw [hs, ht]; omega
  · have ht := exportLoop_total env dbs (⟨dbs.length, 0, 0⟩, [])
    have hs := exportLoop_sum env dbs (⟨dbs.length, 0, 0⟩, [])
    simp only [runExport, runExportWithTrace] at *
    constructor
    · exact ht
    · rw [hs, ht]; omega
  · cases o <;> simp [importApply]
  · cases b <;> simp [exportApply]

/-- C2: For every completed run, the process exit status is zero if and only
if the run ended with `failed = 0` (export mode) and `failed = 0` and
`skipped = 0` (import mode); otherwise the exit status is non-zero (namely 1). -/
theorem exit_code_claim :
    (∀ (env : ImportEnv) (dbs : List DatabaseCredentials),
      (importExitCode (runImport env dbs) = 0 ↔
        (runImport env dbs).failed = 0 ∧ (runImport env dbs).skipped = 0) ∧
      (importExitCode (runImport env dbs) ≠ 0 → importExitCode (runImport env dbs) = 1)) ∧
    (∀ (env : ExportEnv) (dbs : List DatabaseCredentials),
      (exportExitCode (runExport env dbs) = 0 ↔ (runExport env dbs).failed = 0) ∧
      (exportExitCode (runExport env dbs) ≠ 0 → exportExitCode (runExport env dbs) = 1)) := by
  constructor
  · intro env dbs
    unfold importExitCode
    split_ifs with h
    · constructor
      · constructor
        · intro h0; exact h0.elim
        · intro hfs; rcases h with h | h <;> omega
      · intro; rfl
    · rw [not_or] at h
      constructor
      · constructor
        · intro _; constructor <;> omega
        · intro _; rfl
      · intro h0; exact absurd rfl h0
  · intro env dbs
    unfold exportExitCode
    split_ifs with h
    · constructor
      · constructor
        · intro h0; exact h0.elim
        · intro h1; omega
      · intro; rfl
    · constructor
      · constructor
        · intro _; omega
        · intro _; rfl
      · intro h0; exact absurd rfl h0

/-- C6: For every run, no per-database failure terminates the batch: the
orchestrator processes every record of the credential sequence, in the exact
order the records appear in the source, whatever the per-record outcomes. -/
theorem full_sequence_claim :
    (∀ (env : ImportEnv) (dbs : List DatabaseCredentials),
      (runImportWithTrace env dbs).2.map Prod.fst = dbs) ∧
    (∀ (env : ExportEnv) (dbs : List DatabaseCredentials),
      (runExportWithTrace env dbs).2.map Prod.fst = dbs) := by
  constructor
  · intro env dbs
    unfold runImportWithTrace
    rw [importLoop_trace]
    simp [Function.comp_def]
  · intro env dbs
    unfold runExportWithTrace
    rw [exportLoop_trace]
    simp [Function.comp_def]

/-- C8 counterexample: a `mysqldump` child that emits content on standard
error but closes with exit code 0 is reported successful — stderr content does
not signal failure, contradicting the claim. -/
theorem dump_stderr_counterexample :
    dumpOutcome (DumpTermination.closed 0)
      ["Warning: Using a password on the command line interface can be insecure."] = true ∧
    (["Warning: Using a password on the command line interface can be insecure."]
      : List String) ≠ [] := by
  constructor
  · rfl
  · simp

/-- C8 (amended): a dump is reported successful exactly when the child process
closes with exit code 0; any non-zero exit code, spawn failure or timeout is
reported as failed; the captured standard-error text never influences the
outcome (it is only carried into the failure log message). -/
theorem dump_failure_claim :
    (∀ (env : ExportEnv) (db : DatabaseCredentials),
      dumpDatabase env db = true ↔ env.termination db = DumpTermination.closed 0) ∧
    (∀ (term : DumpTermination) (errs errs' : List String),
      dumpOutcome term errs = dumpOutcome term errs') := by
  constructor
  · intro env db
    unfold dumpDatabase
    cases h : env.termination db with
    | closed code => simp [dumpOutcome]
    | spawnError => simp [dumpOutcome]
    | timeout => simp [dumpOutcome]
  · intro term errs errs'
    cases term <;> rfl

/-- If the log directory is absent and some pending `log` call (the `k`-th of
the remaining calls) brings the buffer to a multiple of 10, the run aborts. -/
theorem processLogCalls_aborts :
    ∀ (msgs : List String) (stream : List String),
      (∃ k, 1 ≤ k ∧ k ≤ msgs.length ∧ (stream.length + k) % 10 = 0) →
      processLogCalls false stream msgs = false
  | [], stream => by
    intro ⟨k, hk1, hk2, _⟩
    simp at hk2
    omega
  | m :: ms, stream => by
    intro ⟨k, hk1, hk2, hk3⟩
    by_cases h10 : (stream.length + 1) % 10 = 0
    · simp [processLogCalls, loggerLog, writeFileOk, h10]
    · have hrec : processLogCalls false (stream ++ [m]) ms = false := by
        apply processLogCalls_aborts ms
        refine ⟨k - 1, ?_, ?_, ?_⟩
        · simp at hk2 ⊢
          omega
        · simp at hk2 ⊢
          omega
        · simp
          omega
      simp [processLogCalls, loggerLog, writeFileOk, h10]
      exact hrec

/-- When the log directory exists, every sequence of `log` calls completes. -/
theorem processLogCalls_completes :
    ∀ (msgs : List String) (stream : List String),
      processLogCalls true stream msgs = true
  | [], _ => rfl
  | m :: ms, stream => by
    simp [processLogCalls, loggerLog, writeFileOk]
    exact processLogCalls_completes ms (stream ++ [m])

/-- C10: The import-mode logger constructor never creates its log directory
while the export-mode constructor does; `log` triggers a `flush` (a
`writeFileSync`) exactly on every 10th call; hence with an absent log
directory an import run aborts once ten log calls have accumulated, whereas an
export run's log calls always complete. -/
theorem logger_dir_claim :
    (∀ (logDir : String) (dirExists : Bool),
      importLoggerCtorEffects logDir dirExists = []) ∧
    (∀ (logDir : String),
      exportLoggerCtorEffects logDir false = [FsEffect.mkdirRecursive logDir]) ∧
    (∀ (stream : List String) (m : String),
      (loggerLog stream m).2 = true ↔ (stream.length + 1) % 10 = 0) ∧
    (∀ (msgs : List String), 10 ≤ msgs.length →
      importLoggerRunCompletes false msgs = false) ∧
    (∀ (dirExists : Bool) (msgs : List String),
      exportLoggerRunCompletes dirExists msgs = true) := by
  refine ⟨fun _ _ => rfl, fun _ => rfl, fun stream m => ?_, fun msgs hlen => ?_, fun d msgs => ?_⟩
  · simp [loggerLog]
  · unfold importLoggerRunCompletes
    apply processLogCalls_aborts
    exact ⟨10, by omega, by simpa using hlen, by simp⟩
  · exact processLogCalls_completes msgs []

/-- C10 witness: with the log directory absent, an import run aborts at the
10th log call; the matching export run completes. -/
theorem logger_dir_claim_witness :
    importLoggerRunCompletes false
      ["1", "2", "3", "4", "5", "6", "7", "8", "9", "10"] = false ∧
    exportLoggerRunCompletes false
      ["1", "2", "3", "4", "5", "6", "7", "8", "9", "10"] = true :=
  ⟨logger_dir_claim.2.2.2.1 _ (by decide),
    logger_dir_claim.2.2.2.2 false _⟩

/-- C3: For a record whose host is `localhost`, a failed first restore attempt
is retried exactly once against `127.0.0.1`, and symmetrically for
`127.0.0.1`; any other host value is never retried; a first attempt that
succeeds is never retried; and a record whose retry succeeds is recorded
successful after exactly two restore attempts. -/
theorem host_fallback_claim :
    ∀ (env : ImportEnv) (db : DatabaseCredentials),
      (db.host = "localhost" → env.restoreOk db "localhost" = false →
        importDatabase env db = (env.restoreOk db "127.0.0.1", ["localhost", "127.0.0.1"])) ∧
      (db.host = "127.0.0.1" → env.restoreOk db "127.0.0.1" = false →
        importDatabase env db = (env.restoreOk db "localhost", ["127.0.0.1", "localhost"])) ∧
      (db.host ≠ "localhost" → db.host ≠ "127.0.0.1" →
        importDatabase env db = (env.restoreOk db db.host, [db.host])) ∧
      (env.restoreOk db db.host = true → importDatabase env db = (true, [db.host])) ∧
      (∀ f, findBackupFile db.database_name env.backupPath env.listing = some f →
        env.provisionOk db = true → db.host = "localhost" →
        env.restoreOk db "localhost" = false → env.restoreOk db "127.0.0.1" = true →
        importStep env db = (RecordOutcome.successful,
          [ImportOp.locate, ImportOp.provision, ImportOp.restore "localhost",
            ImportOp.restore "127.0.0.1"])) := by
  intro env db
  refine ⟨?_, ?_, ?_, ?_, ?_⟩
  · intro h1 h2
    simp [importDatabase, h1, h2]
  · intro h1 h2
    simp [importDatabase, h1, h2]
  · intro h1 h2
    simp [importDatabase, h1, h2]
  · intro h
    simp [importDatabase, h]
  · intro f hfind hprov h1 h2 h3
    have hd : importDatabase env db = (true, ["localhost", "127.0.0.1"]) := by
      simp [importDatabase, h1, h2, h3]
    simp [importStep, hfind, hprov, hd]

/-- C3 witness: a concrete record with host `localhost` whose first restore
attempt fails and whose retry against `127.0.0.1` succeeds is recorded
successful, with exactly the two restore attempts `localhost` then
`127.0.0.1`. -/
theorem host_fallback_claim_witness :
    importStep
      { backupPath := "backups", listing := some ["db1_2024-01-01_000000.sql"],
        provisionOk := fun _ => true,
        restoreOk := fun _ h => h == "127.0.0.1" }
      { database_name := "db1", username := "u", password := "p", host := "localhost" }
      = (RecordOutcome.successful,
        [ImportOp.locate, ImportOp.provision, ImportOp.restore "localhost",
          ImportOp.restore "127.0.0.1"]) :=
  (host_fallback_claim _ _).2.2.2.2 "backups/db1_2024-01-01_000000.sql"
    (by decide) rfl rfl rfl rfl

/-- C5: In import mode the per-record steps occur in the order locate,
provision, restore, and short-circuit: with no backup artifact the record is
skipped and neither provisioning nor restore is attempted; with a failed
provisioning the record is failed (not skipped) and restore is never
attempted; otherwise at least one restore attempt follows provisioning and
decides the outcome. -/
theorem step_order_claim :
    ∀ (env : ImportEnv) (db : DatabaseCredentials),
      (findBackupFile db.database_name env.backupPath env.listing = none →
        importStep env db = (RecordOutcome.skipped, [ImportOp.locate])) ∧
      (∀ f, findBackupFile db.database_name env.backupPath env.listing = some f →
        env.provisionOk db = false →
        importStep env db = (RecordOutcome.failed, [ImportOp.locate, ImportOp.provision])) ∧
      (∀ f, findBackupFile db.database_name env.backupPath env.listing = some f →
        env.provisionOk db = true →
        (importDatabase env db).2 ≠ [] ∧
        importStep env db =
          ((if (importDatabase env db).1 then RecordOutcome.successful
            else RecordOutcome.failed),
            ImportOp.locate :: ImportOp.provision ::
              (importDatabase env db).2.map ImportOp.restore)) := by
  intro env db
  refine ⟨?_, ?_, ?_⟩
  · intro hfind
    simp [importStep, hfind]
  · intro f hfind hprov
    simp [importStep, hfind, hprov]
  · intro f hfind hprov
    constructor
    · unfold importDatabase
      dsimp only
      split_ifs <;> simp
    · simp [importStep, hfind, hprov]

/-- C5 witness: with an empty backup directory the record is skipped without
provisioning; with a backup present but provisioning failing the record is
failed without any restore attempt. -/
theorem step_order_claim_witness :
    importStep
      { backupPath := "backups", listing := some [], provisionOk := fun _ => true,
        restoreOk := fun _ _ => true }
      { database_name := "db1", username := "u", password := "p", host := "localhost" }
      = (RecordOutcome.skipped, [ImportOp.locate]) ∧
    importStep
      { backupPath := "backups", listing := some ["db1_2024-01-01_000000.sql"],
        provisionOk := fun _ => false, restoreOk := fun _ _ => true }
      { database_name := "db1", username := "u", password := "p", host := "localhost" }
      = (RecordOutcome.failed, [ImportOp.locate, ImportOp.provision]) :=
  ⟨(step_order_claim _ _).1 (by decide),
    (step_order_claim _ _).2.1 "backups/db1_2024-01-01_000000.sql" (by decide) rfl⟩

/-- C2 witness: a one-record import run whose record is skipped exits with
status 1, and a one-record export run whose dump times out exits with
status 1. -/
theorem exit_code_claim_witness :
    importExitCode (runImport
      { backupPath := "backups", listing := some [], provisionOk := fun _ => true,
        restoreOk := fun _ _ => true }
      [{ database_name := "db1", username := "u", password := "p", host := "localhost" }]) = 1 ∧
    exportExitCode (runExport
      { termination := fun _ => DumpTermination.timeout, stderrOutput := fun _ => [] }
      [{ database_name := "db1", username := "u", password := "p", host := "localhost" }]) = 1 :=
  ⟨(exit_code_claim.1 _ _).2 (by decide), (exit_code_claim.2 _ _).2 (by decide)⟩

theorem listCharLe_iff : ∀ (a b : List Char),
    listCharLe a b = true ↔ (List.Lex (· < ·) a b ∨ a = b)
  | [], [] => by simp [listCharLe]
  | [], c :: cs => iff_of_true rfl (Or.inl List.Lex.nil)
  | a :: as, [] => by
    refine iff_of_false (by simp [listCharLe]) ?_
    rintro (h | h)
    · exact List.Lex.not_nil_right _ _ h
    · simp at h
  | a :: as, b :: bs => by
    by_cases hab : a < b
    · exact iff_of_true (by simp [listCharLe, hab]) (Or.inl (List.Lex.rel hab))
    · by_cases hba : b < a
      · refine iff_of_false (by simp [listCharLe, hab, hba]) ?_
        rintro (h | h)
        · cases h with
          | cons h' => exact absurd hba (lt_irrefl _)
          | rel h' => exact hab h'
        · rw [List.cons.injEq] at h
          rw [h.1] at hba
          exact absurd hba (lt_irrefl _)
      · have heq : a = b := le_antisymm (not_lt.mp hba) (not_lt.mp hab)
        subst heq
        have ih := listCharLe_iff as bs
        simp only [listCharLe, if_neg hab, if_neg hba]
        rw [ih, List.Lex.cons_iff, List.cons.injEq]
        simp

theorem strLeB_iff_le (s t : String) : strLeB s t = true ↔ s ≤ t := by
  rw [String.le_iff_toList_le, le_iff_lt_or_eq]
  have hlt : (s.toList < t.toList) ↔ List.Lex (· < ·) s.data t.data := Iff.rfl
  rw [hlt]
  exact listCharLe_iff s.data t.data

instance : IsTotal String (fun a b => strLeB a b = true) :=
  ⟨fun a b => by
    rcases le_total a b with h | h
    · exact Or.inl ((strLeB_iff_le a b).mpr h)
    · exact Or.inr ((strLeB_iff_le b a).mpr h)⟩

instance : IsTrans String (fun a b => strLeB a b = true) :=
  ⟨fun a b c hab hbc => (strLeB_iff_le a c).mpr
    (le_trans ((strLeB_iff_le a b).mp hab) ((strLeB_iff_le b c).mp hbc))⟩

theorem jsSortStrings_sorted (files : List String) :
    (jsSortStrings files).Sorted (fun a b => strLeB a b = true) :=
  List.sorted_insertionSort _ files

theorem mem_jsSortStrings {files : List String} {x : String} :
    x ∈ jsSortStrings files ↔ x ∈ files :=
  List.mem_insertionSort _

theorem findBackupFile_none_iff (dbName backupPath : String) (files : List String) :
    findBackupFile dbName backupPath (some files) = none ↔
      files.filter (fun f => backupMatches dbName f) = [] := by
  unfold findBackupFile
  dsimp only
  constructor
  · intro h
    rcases hL : (jsSortStrings (files.filter fun file => backupMatches dbName file)).reverse with
      _ | ⟨f, rest⟩
    · have hlen := congrArg List.length hL
      rw [List.length_reverse, jsSortStrings,
        (List.perm_insertionSort _ _).length_eq] at hlen
      simpa using List.length_eq_zero.mp hlen
    · rw [hL] at h
      simp at h
  · intro hfil
    rw [hfil]
    simp [jsSortStrings, List.insertionSort]

theorem findBackupFile_some_max (dbName backupPath : String) (files : List String)
    (p : String) (h : findBackupFile dbName backupPath (some files) = some p) :
    ∃ f, p = joinPath backupPath f ∧ f ∈ files ∧ backupMatches dbName f = true ∧
      ∀ g ∈ files, backupMatches dbName g = true → g ≤ f := by
  unfold findBackupFile at h
  dsimp only at h
  rcases hL : (jsSortStrings (files.filter fun file => backupMatches dbName file)).reverse with
    _ | ⟨f, rest⟩
  · rw [hL] at h; simp at h
  · rw [hL] at h
    simp only [Option.some.injEq] at h
    refine ⟨f, h.symm, ?_, ?_, ?_⟩
    · have hf : f ∈ (jsSortStrings (files.filter fun file => backupMatches dbName file)).reverse := by
        rw [hL]; exact List.mem_cons_self _ _
      rw [List.mem_reverse, mem_jsSortStrings, List.mem_filter] at hf
      exact hf.1
    · have hf : f ∈ (jsSortStrings (files.filter fun file => backupMatches dbName file)).reverse := by
        rw [hL]; exact List.mem_cons_self _ _
      rw [List.mem_reverse, mem_jsSortStrings, List.mem_filter] at hf
      exact hf.2
    · intro g hg hmatch
      have hgmem : g ∈ (jsSortStrings (files.filter fun file => backupMatches dbName file)).reverse := by
        rw [List.mem_reverse, mem_jsSortStrings, List.mem_filter]
        exact ⟨hg, hmatch⟩
      rw [hL, List.mem_cons] at hgmem
      rcases hgmem with rfl | hgrest
      · exact le_refl g
      · have hsorted := jsSortStrings_sorted (files.filter fun file => backupMatches dbName file)
        have hpw : List.Pairwise (fun a b => strLeB b a = true)
            (jsSortStrings (files.filter fun file => backupMatches dbName file)).reverse :=
          List.pairwise_reverse.mpr hsorted
        rw [hL] at hpw
        have := (List.pairwise_cons.mp hpw).1 g hgrest
        exact (strLeB_iff_le g f).mp this

/-- C4: For every database name and directory state, `findBackupFile` returns
the greatest (first in descending lexicographic order) directory entry that
begins with the database name followed by an underscore and ends in `.sql`,
joined onto the directory path; it returns none exactly when the directory is
absent or no entry matches; in particular, with files `a_2024-01-01...`,
`a_2024-02-01...` and a `b_...` file, looking up `a` yields the February file
and looking up `c` yields none. -/
theorem backup_locator_claim :
    (∀ dbName backupPath : String, findBackupFile dbName backupPath none = none) ∧
    (∀ (dbName backupPath : String) (files : List String),
      findBackupFile dbName backupPath (some files) = none ↔
        files.filter (fun f => backupMatches dbName f) = []) ∧
    (∀ (dbName backupPath : String) (files : List String) (p : String),
      findBackupFile dbName backupPath (some files) = some p →
      ∃ f, p = joinPath backupPath f ∧ f ∈ files ∧ backupMatches dbName f = true ∧
        ∀ g ∈ files, backupMatches dbName g = true → g ≤ f) ∧
    (findBackupFile "a" "backups"
        (some ["a_2024-01-01_000000.sql", "b_2024-03-05_000000.sql", "a_2024-02-01_000000.sql"])
      = some "backups/a_2024-02-01_000000.sql") ∧
    (findBackupFile "c" "backups"
        (some ["a_2024-01-01_000000.sql", "b_2024-03-05_000000.sql", "a_2024-02-01_000000.sql"])
      = none) :=
  ⟨fun _ _ => rfl, findBackupFile_none_iff, findBackupFile_some_max, by decide, by decide⟩

/-- C4 witness: the maximality characterisation instantiated at the concrete
three-file directory. -/
theorem backup_locator_claim_witness :
    ∃ f, "backups/a_2024-02-01_000000.sql" = joinPath "backups" f ∧
      f ∈ ["a_2024-01-01_000000.sql", "b_2024-03-05_000000.sql", "a_2024-02-01_000000.sql"] ∧
      backupMatches "a" f = true ∧
      ∀ g ∈ ["a_2024-01-01_000000.sql", "b_2024-03-05_000000.sql", "a_2024-02-01_000000.sql"],
        backupMatches "a" g = true → g ≤ f :=
  backup_locator_claim.2.2.1 "a" "backups" _ _ (by decide)

/-- C9: The backup-file match is by name prefix only: whenever database name
`e` begins with database name `d` followed by an underscore, any backup file
of `e` also matches a lookup for `d`; concretely, with `app`'s January backup
and `app_db`'s June backup on disk, `findBackupFile "app"` returns `app_db`'s
artifact because it sorts lexicographically after all of `app`'s own
backups. -/
theorem prefix_collision_claim :
    (∀ d e ts : String, jsStartsWith e (d ++ "_") = true →
      backupMatches d (e ++ "_" ++ ts ++ ".sql") = true) ∧
    (findBackupFile "app" "backups"
        (some ["app_2024-01-01_000000.sql", "app_db_2024-06-01_000000.sql"])
      = some "backups/app_db_2024-06-01_000000.sql") := by
  constructor
  · intro d e ts h
    unfold jsStartsWith at h
    unfold backupMatches jsStartsWith jsEndsWith
    rw [Bool.and_eq_true]
    constructor
    · rw [ List.isPrefixOf_iff_prefix] at h ⊢
      have hstep : e.data <+: (e ++ "_" ++ ts ++ ".sql").data := by
        simp only [String.data_append, List.append_assoc]
        exact List.prefix_append _ _
      exact h.trans hstep
    · rw [ List.isSuffixOf_iff_suffix]
      simp only [String.data_append, List.append_assoc]
      exact ((List.suffix_append _ _).trans (List.suffix_append _ _)).trans
        (List.suffix_append _ _)
  · decide

/-- C9 witness: `app_db`'s backup file name matches a lookup for `app`. -/
theorem prefix_collision_claim_witness :
    backupMatches "app" ("app_db" ++ "_" ++ "2024-06-01" ++ ".sql") = true :=
  prefix_collision_claim.1 "app" "app_db" "2024-06-01" (by decide)

theorem digitChar_lt_iff {a b : Nat} (ha : a < 10) (hb : b < 10) :
    digitChar a < digitChar b ↔ a < b := by
  interval_cases a <;> interval_cases b <;> decide

theorem digitChar_ne_special {d : Nat} (h : d < 10) :
    digitChar d ≠ ':' ∧ digitChar d ≠ '.' ∧ digitChar d ≠ 'T' ∧
      digitChar d ≠ '-' ∧ digitChar d ≠ 'Z' := by
  interval_cases d <;> refine ⟨by decide, by decide, by decide, by decide, by decide⟩

theorem map_replace_pad2 {n : Nat} (h : n < 100) :
    (pad2 n).map (fun c => if c = ':' ∨ c = '.' then '-' else c) = pad2 n := by
  have h1 := digitChar_ne_special (show n / 10 < 10 by omega)
  have h2 := digitChar_ne_special (show n % 10 < 10 by omega)
  simp [pad2, h1.1, h1.2.1, h2.1, h2.2.1]

theorem map_replace_pad3 {n : Nat} (h : n < 1000) :
    (pad3 n).map (fun c => if c = ':' ∨ c = '.' then '-' else c) = pad3 n := by
  have h0 := digitChar_ne_special (show n / 100 < 10 by omega)
  have h2 := map_replace_pad2 (show n % 100 < 100 by omega)
  simp only [pad3, List.map_cons, h2]
  simp [h0.1, h0.2.1]

theorem map_replace_pad4 {n : Nat} (h : n < 10000) :
    (pad4 n).map (fun c => if c = ':' ∨ c = '.' then '-' else c) = pad4 n := by
  simp only [pad4, List.map_append,
    map_replace_pad2 (show n / 100 < 100 by omega),
    map_replace_pad2 (show n % 100 < 100 by omega)]

theorem replace_toISO (t : UTCTime) (h : validTime t) :
    replaceColonsDots (toISOChars t) =
      pad4 t.year ++ '-' :: pad2 t.month ++ '-' :: pad2 t.day ++
        'T' :: pad2 t.hour ++ '-' :: pad2 t.minute ++ '-' :: pad2 t.second ++
        '-' :: pad3 t.ms ++ ['Z'] := by
  obtain ⟨hy, hmo, hd, hh, hmi, hs, hms⟩ := h
  unfold replaceColonsDots toISOChars
  simp only [List.map_append, List.map_cons, List.map_nil]
  rw [map_replace_pad4 hy, map_replace_pad2 hmo, map_replace_pad2 hd, map_replace_pad2 hh,
    map_replace_pad2 hmi, map_replace_pad2 hs, map_replace_pad3 hms]
  rfl

theorem splitOnChar_ne_nil (sep : Char) : ∀ l, splitOnChar sep l ≠ []
  | [] => by simp [splitOnChar]
  | c :: cs => by
    unfold splitOnChar
    rcases h : splitOnChar sep cs with _ | ⟨r, rs⟩
    · exact absurd h (splitOnChar_ne_nil sep cs)
    · split_ifs <;> simp

theorem splitOnChar_not_mem {sep : Char} : ∀ {l : List Char}, sep ∉ l → splitOnChar sep l = [l]
  | [], _ => rfl
  | c :: cs, h => by
    have hc : c ≠ sep := by
      rintro rfl
      exact h (List.mem_cons_self _ _)
    have ih := splitOnChar_not_mem (l := cs) (fun hm => h (List.mem_cons_of_mem _ hm))
    unfold splitOnChar
    rw [ih]
    simp [if_neg hc]

theorem splitOnChar_append {sep : Char} : ∀ {a : List Char} (b : List Char), sep ∉ a →
    splitOnChar sep (a ++ sep :: b) = a :: splitOnChar sep b
  | [], b, _ => by
    rw [List.nil_append]
    rcases h : splitOnChar sep b with _ | ⟨r, rs⟩
    · exact absurd h (splitOnChar_ne_nil sep b)
    · simp only [splitOnChar]
      rw [h]
      simp
  | c :: a', b, h => by
    have hc : c ≠ sep := by
      rintro rfl
      exact h (List.mem_cons_self _ _)
    have ih := splitOnChar_append (a := a') b (fun hm => h (List.mem_cons_of_mem _ hm))
    rw [List.cons_append]
    simp only [splitOnChar]
    rw [ih]
    simp [if_neg hc]

theorem not_mem_pad2 {c : Char} {n : Nat} (h : n < 100)
    (hc : ∀ d, d < 10 → digitChar d ≠ c) : c ∉ pad2 n := by
  intro hmem
  simp only [pad2, List.mem_cons, List.not_mem_nil, or_false] at hmem
  rcases hmem with he | he
  · exact hc (n / 10) (by omega) he.symm
  · exact hc (n % 10) (by omega) he.symm

theorem not_mem_pad3 {c : Char} {n : Nat} (h : n < 1000)
    (hc : ∀ d, d < 10 → digitChar d ≠ c) : c ∉ pad3 n := by
  intro hmem
  simp only [pad3, List.mem_cons] at hmem
  rcases hmem with he | he
  · exact hc (n / 100) (by omega) he.symm
  · exact not_mem_pad2 (show n % 100 < 100 by omega) hc he

theorem not_mem_pad4 {c : Char} {n : Nat} (h : n < 10000)
    (hc : ∀ d, d < 10 → digitChar d ≠ c) : c ∉ pad4 n := by
  intro hmem
  simp only [pad4, List.mem_append] at hmem
  rcases hmem with he | he
  · exact not_mem_pad2 (show n / 100 < 100 by omega) hc he
  · exact not_mem_pad2 (show n % 100 < 100 by omega) hc he

theorem dumpDateTimeChars_eq (t : UTCTime) (h : validTime t) :
    dumpDateTimeChars t = hourChars t := by
  obtain ⟨hy, hmo, hd, hh, hmi, hs, hms⟩ := h
  have hcT : ∀ d, d < 10 → digitChar d ≠ 'T' := fun d hd10 =>
    (digitChar_ne_special hd10).2.2.1
  have hcDash : ∀ d, d < 10 → digitChar d ≠ '-' := fun d hd10 =>
    (digitChar_ne_special hd10).2.2.2.1
  have hp1 : 'T' ∉ pad4 t.year := not_mem_pad4 hy hcT
  have hp2 : 'T' ∉ pad2 t.month := not_mem_pad2 hmo hcT
  have hp3 : 'T' ∉ pad2 t.day := not_mem_pad2 hd hcT
  have hp4 : 'T' ∉ pad2 t.hour := not_mem_pad2 hh hcT
  have hp5 : 'T' ∉ pad2 t.minute := not_mem_pad2 hmi hcT
  have hp6 : 'T' ∉ pad2 t.second := not_mem_pad2 hs hcT
  have hp7 : 'T' ∉ pad3 t.ms := not_mem_pad3 hms hcT
  have hTd : ('T' : Char) ≠ '-' := by decide
  have hTz : ('T' : Char) ≠ 'Z' := by decide
  have hTA : 'T' ∉ pad4 t.year ++ '-' :: pad2 t.month ++ '-' :: pad2 t.day := by
    simp [List.mem_append, List.mem_cons, hp1, hp2, hp3, hTd]
  have hTB : 'T' ∉ pad2 t.hour ++ '-' :: pad2 t.minute ++ '-' :: pad2 t.second ++
      '-' :: pad3 t.ms ++ ['Z'] := by
    simp [List.mem_append, List.mem_cons, hp4, hp5, hp6, hp7, hTd, hTz]
  have hB := splitOnChar_not_mem hTB
  have hCdash : '-' ∉ pad2 t.hour := not_mem_pad2 hh hcDash
  have hshape : (pad4 t.year ++ '-' :: pad2 t.month ++ '-' :: pad2 t.day ++
      'T' :: pad2 t.hour ++ '-' :: pad2 t.minute ++ '-' :: pad2 t.second ++
      '-' :: pad3 t.ms ++ ['Z'] : List Char)
      = (pad4 t.year ++ '-' :: pad2 t.month ++ '-' :: pad2 t.day) ++
        'T' :: (pad2 t.hour ++ '-' :: pad2 t.minute ++ '-' :: pad2 t.second ++
          '-' :: pad3 t.ms ++ ['Z']) := by
    simp [List.append_assoc, List.cons_append]
  have hshape2 : (pad2 t.hour ++ '-' :: pad2 t.minute ++ '-' :: pad2 t.second ++
      '-' :: pad3 t.ms ++ ['Z'] : List Char)
      = pad2 t.hour ++ '-' :: (pad2 t.minute ++ '-' :: pad2 t.second ++
          '-' :: pad3 t.ms ++ ['Z']) := by
    simp [List.append_assoc, List.cons_append]
  unfold dumpDateTimeChars
  rw [replace_toISO t ⟨hy, hmo, hd, hh, hmi, hs, hms⟩]
  dsimp only
  rw [hshape, splitOnChar_append _ hTA, hB]
  simp only [List.getD_cons_zero, List.getD_cons_succ]
  rw [hshape2, splitOnChar_append _ hCdash]
  simp only [List.getD_cons_zero]
  unfold hourChars
  simp [List.append_assoc, List.cons_append]

theorem lex_append_of_eqlen {r : Char → Char → Prop} {p q : List Char}
    (h : List.Lex r p q) : p.length = q.length →
      ∀ (u v : List Char), List.Lex r (p ++ u) (q ++ v) := by
  induction h with
  | nil => intro hlen; simp at hlen
  | @rel a l1 b l2 hab => intro _ u v; exact List.Lex.rel hab
  | @cons a l1 l2 hlex ih =>
    intro hlen u v
    exact List.Lex.cons (ih (by simpa using hlen) u v)

theorem pad2_lex {a b : Nat} (hb : b < 100) (hab : a < b) :
    List.Lex (· < ·) (pad2 a) (pad2 b) := by
  have h10 : a / 10 ≤ b / 10 := Nat.div_le_div_right (le_of_lt hab)
  rcases lt_or_eq_of_le h10 with hlt | heq
  · exact List.Lex.rel ((digitChar_lt_iff (by omega) (by omega)).mpr hlt)
  · have hm : a % 10 < b % 10 := by omega
    unfold pad2
    rw [heq]
    exact List.Lex.cons (List.Lex.rel ((digitChar_lt_iff (by omega) (by omega)).mpr hm))

theorem pad4_lex {a b : Nat} (hb : b < 10000) (hab : a < b) :
    List.Lex (· < ·) (pad4 a) (pad4 b) := by
  have h100 : a / 100 ≤ b / 100 := Nat.div_le_div_right (le_of_lt hab)
  unfold pad4
  rcases lt_or_eq_of_le h100 with hlt | heq
  · exact lex_append_of_eqlen (pad2_lex (by omega) hlt) rfl _ _
  · have hm : a % 100 < b % 100 := by omega
    rw [heq]
    exact List.Lex.append_left _ (pad2_lex (by omega) hm) _

theorem hourChars_lex {t1 t2 : UTCTime} (h1 : validTime t1) (h2 : validTime t2)
    (h : hourTruncEarlier t1 t2) :
    List.Lex (· < ·) (hourChars t1) (hourChars t2) := by
  obtain ⟨hy1, hmo1, hd1, hh1, -, -, -⟩ := h1
  obtain ⟨hy2, hmo2, hd2, hh2, -, -, -⟩ := h2
  unfold hourChars
  rcases h with hy | ⟨hyeq, hmo | ⟨hmoeq, hd | ⟨hdeq, hh⟩⟩⟩
  · have hshape : ∀ u : UTCTime, pad4 u.year ++ '-' :: pad2 u.month ++ '-' :: pad2 u.day ++
        '_' :: pad2 u.hour
        = pad4 u.year ++ ('-' :: pad2 u.month ++ '-' :: pad2 u.day ++ '_' :: pad2 u.hour) := by
      intro u
      simp [List.append_assoc]
    rw [hshape t1, hshape t2]
    exact lex_append_of_eqlen (pad4_lex hy2 hy) (by simp [pad4, pad2]) _ _
  · rw [hyeq]
    have hshape : ∀ u : UTCTime, pad4 t2.year ++ '-' :: pad2 u.month ++ '-' :: pad2 u.day ++
        '_' :: pad2 u.hour
        = pad4 t2.year ++ '-' :: (pad2 u.month ++ ('-' :: pad2 u.day ++ '_' :: pad2 u.hour)) := by
      intro u
      simp [List.append_assoc]
    rw [hshape t1, hshape t2]
    apply List.Lex.append_left
    apply List.Lex.cons
    exact lex_append_of_eqlen (pad2_lex hmo2 hmo) rfl _ _
  · rw [hyeq, hmoeq]
    have hshape : ∀ u : UTCTime, pad4 t2.year ++ '-' :: pad2 t2.month ++ '-' :: pad2 u.day ++
        '_' :: pad2 u.hour
        = (pad4 t2.year ++ '-' :: pad2 t2.month) ++ '-' ::
            (pad2 u.day ++ '_' :: pad2 u.hour) := by
      intro u
      simp [List.append_assoc]
    rw [hshape t1, hshape t2]
    apply List.Lex.append_left
    apply List.Lex.cons
    exact lex_append_of_eqlen (pad2_lex hd2 hd) rfl _ _
  · rw [hyeq, hmoeq, hdeq]
    have hshape : ∀ u : UTCTime, pad4 t2.year ++ '-' :: pad2 t2.month ++ '-' :: pad2 t2.day ++
        '_' :: pad2 u.hour
        = (pad4 t2.year ++ '-' :: pad2 t2.month ++ '-' :: pad2 t2.day) ++ '_' ::
            pad2 u.hour := by
      intro u
      simp [List.append_assoc]
    rw [hshape t1, hshape t2]
    apply List.Lex.append_left
    apply List.Lex.cons
    exact pad2_lex hh2 hh

/-- C7 counterexample: two dumps of the same database taken at different
times (10:05 and 10:30 of the same day) produce the identical backup file
name `app_2024-05-01_10.sql` — the embedded timestamp carries only the date
and the hour, so the two artifacts cannot sort most-recent-first and the
second write overwrites the first. -/
theorem dump_filename_counterexample :
    exportBackupFileName "app" ⟨2024, 5, 1, 10, 5, 0, 0⟩
      = exportBackupFileName "app" ⟨2024, 5, 1, 10, 30, 0, 0⟩ ∧
    (⟨2024, 5, 1, 10, 5, 0, 0⟩ : UTCTime) ≠ ⟨2024, 5, 1, 10, 30, 0, 0⟩ ∧
    exportBackupFileName "app" ⟨2024, 5, 1, 10, 5, 0, 0⟩ = "app_2024-05-01_10.sql" :=
  ⟨by decide, by decide, by decide⟩

/-- C7 (amended): For every successful dump, the backup artifact name is
`<database_name>_<YYYY-MM-DD_HH>.sql` — the timestamp is truncated to the
hour.  Two dumps of the same database whose hour-truncated times coincide get
the identical file name (the later dump overwrites the earlier), and when the
hour-truncated times differ, lexicographic file-name order coincides with
chronological order, so such dumps sort most-recent-first. -/
theorem dump_filename_claim :
    (∀ (dbName : String) (t : UTCTime), validTime t →
      exportBackupFileName dbName t
        = dbName ++ "_" ++ String.mk (hourChars t) ++ ".sql") ∧
    (∀ (dbName : String) (t1 t2 : UTCTime), validTime t1 → validTime t2 →
      t1.year = t2.year → t1.month = t2.month → t1.day = t2.day → t1.hour = t2.hour →
      exportBackupFileName dbName t1 = exportBackupFileName dbName t2) ∧
    (∀ (dbName : String) (t1 t2 : UTCTime), validTime t1 → validTime t2 →
      hourTruncEarlier t1 t2 →
      exportBackupFileName dbName t1 < exportBackupFileName dbName t2) := by
  have hdata : ∀ (dbName : String) (l : List Char),
      (dbName ++ "_" ++ String.mk l ++ ".sql").toList
        = dbName.data ++ '_' :: (l ++ ".sql".data) := by
    intro dbName l
    show (dbName ++ "_" ++ String.mk l ++ ".sql").data = _
    simp [String.data_append, List.append_assoc]
  refine ⟨?_, ?_, ?_⟩
  · intro dbName t hv
    unfold exportBackupFileName
    rw [dumpDateTimeChars_eq t hv]
  · intro dbName t1 t2 hv1 hv2 hy hmo hd hh
    unfold exportBackupFileName
    rw [dumpDateTimeChars_eq t1 hv1, dumpDateTimeChars_eq t2 hv2]
    have : hourChars t1 = hourChars t2 := by
      unfold hourChars
      rw [hy, hmo, hd, hh]
    rw [this]
  · intro dbName t1 t2 hv1 hv2 hlt
    unfold exportBackupFileName
    rw [dumpDateTimeChars_eq t1 hv1, dumpDateTimeChars_eq t2 hv2]
    rw [String.lt_iff_toList_lt]
    rw [hdata dbName (hourChars t1), hdata dbName (hourChars t2)]
    show List.Lex (· < ·) _ _
    apply List.Lex.append_left
    apply List.Lex.cons
    exact lex_append_of_eqlen (hourChars_lex hv1 hv2 hlt)
      (by simp [hourChars, pad4, pad2]) _ _

/-- C7 witness: the name characterisation at a concrete instant, and
name-order agreeing with hour order for two concrete instants an hour
apart. -/
theorem dump_filename_claim_witness :
    exportBackupFileName "app" ⟨2024, 5, 1, 9, 30, 0, 0⟩
      = "app" ++ "_" ++ String.mk (hourChars ⟨2024, 5, 1, 9, 30, 0, 0⟩) ++ ".sql" ∧
    exportBackupFileName "app" ⟨2024, 5, 1, 9, 30, 0, 0⟩
      < exportBackupFileName "app" ⟨2024, 5, 1, 10, 0, 0, 0⟩ :=
  ⟨dump_filename_claim.1 "app" _ (by unfold validTime; decide),
    dump_filename_claim.2.2 "app" _ _ (by unfold validTime; decide)
      (by unfold validTime; decide) (by unfold hourTruncEarlier; decide)⟩
